import Mathlib

/-
Shallow embedding of the ntgo typed-value wire codec (src/entry.go).

A byte stream is modelled as a `List Nat` whose entries are byte values;
`io.Reader`-based decoders become functions from the stream to
`Except Err (result × remaining stream)`.  Mutating methods on a value
become functions returning the Go error result together with the value's
state after the call.

The calls to `mergo.MergeWithOverwrite(dst, src)` are embedded per call
site, following the library's documented semantics: when both arguments
resolve to structs of the same type, every field of dst is overwritten by
the corresponding field of src unless that src field is empty (false for
bools, length 0 for strings and slices, 0.0 for floats), in which case the
dst field is kept; when dst does not resolve to a struct or map (as in
ValueDoubleArray.Update, which passes a pointer to a pointer), mergo
returns its not-supported error and mutates nothing.
-/

namespace Ntgo

/-- The error values of entry.go (plus the stream-end / short-read error that
`io.Reader` and `io.ReadFull` surface, and mergo's dst-not-supported error). -/
inductive Err where
  | truncated
  | entryCastInvalid
  | entryNoSuchType
  | entryDataInvalid
  | arrayIndexOutOfBounds
  | arrayOutOfSpace
  | entryFlagNoSuchType
  | mergoNotSupported
  deriving DecidableEq

/-- Modelled from the spec: the repository's ULEB128 encoder (`EncodeULEB128`,
a repository function not under src/) produces the minimal unsigned-LEB128
encoding, 7 data bits per byte, least-significant group first, continuation
bit 0x80 set on all but the last byte. -/
def EncodeULEB128 (n : Nat) : List Nat :=
  if n < 128 then [n]
  else (n % 128 + 128) :: EncodeULEB128 (n / 128)
decreasing_by omega

/-- Modelled from the spec: the repository's ULEB128 decoder
(`DecodeAndSaveULEB128`, a repository function not under src/) reads
continuation-flagged bytes until one with the continuation bit clear,
accumulating 7-bit groups least-significant first, and returns the decoded
value, the raw bytes consumed, and the rest of the stream; it fails with the
stream-end error if the stream ends before a terminating byte. -/
def DecodeAndSaveULEB128 : List Nat → Except Err (Nat × List Nat × List Nat)
  | [] => .error .truncated
  | b :: rest =>
    if b < 128 then .ok (b, [b], rest)
    else
      match DecodeAndSaveULEB128 rest with
      | .error e => .error e
      | .ok (v, consumed, rem) => .ok (b % 128 + 128 * v, b :: consumed, rem)

/-- Modelled from the spec: `Float64ToBytes` (a repository function not under
src/) emits the pinned 8-byte representation of a float64; float64 values are
identified with their 64-bit pattern, emitted big-endian per the spec's
"all integers big-endian" convention. -/
def Float64ToBytes (f : Nat) : List Nat :=
  [f / 2 ^ 56 % 256, f / 2 ^ 48 % 256, f / 2 ^ 40 % 256, f / 2 ^ 32 % 256,
   f / 2 ^ 24 % 256, f / 2 ^ 16 % 256, f / 2 ^ 8 % 256, f % 256]

/-- Modelled from the spec: `BytesToFloat64` (a repository function not under
src/), the inverse of `Float64ToBytes` on 8-byte inputs. -/
def BytesToFloat64 (data : List Nat) : Nat :=
  data.foldl (fun acc b => acc * 256 + b) 0

/-- entry.go: `type ValueBoolean struct { Value bool; RawValue []byte }`. -/
structure ValueBoolean where
  Value : Bool
  RawValue : List Nat
  deriving DecidableEq

/-- entry.go `DecodeBoolean`: read 1 byte; 0x00 is false, 0x01 is true, any
other byte fails with ErrEntryDataInvalid. -/
def DecodeBoolean : List Nat → Except Err (ValueBoolean × List Nat)
  | [] => .error .truncated
  | b :: rest =>
    if b = 0 then .ok (⟨false, [b]⟩, rest)
    else if b = 1 then .ok (⟨true, [b]⟩, rest)
    else .error .entryDataInvalid

/-- entry.go `BuildBoolean`. -/
def BuildBoolean (value : Bool) : ValueBoolean :=
  if value then ⟨value, [1]⟩ else ⟨value, [0]⟩

/-- `mergo.MergeWithOverwrite` specialised to a ValueBoolean dst and src:
each dst field is overwritten by the src field unless the src field is empty
(false, or a length-0 slice). -/
def mergeValueBoolean (dst src : ValueBoolean) : ValueBoolean :=
  ⟨if src.Value = false then dst.Value else src.Value,
   if src.RawValue = [] then dst.RawValue else src.RawValue⟩

/-- entry.go `ValueBoolean.GetRaw`. -/
def ValueBoolean.GetRaw (entry : ValueBoolean) : List Nat :=
  entry.RawValue

/-- entry.go `ValueBoolean.UpdateRaw`: decode a fresh boolean from the stream
and merge it over the receiver; a decode error is returned with the receiver
untouched. -/
def ValueBoolean.UpdateRaw (entry : ValueBoolean) (r : List Nat) :
    Except Err Unit × ValueBoolean :=
  match DecodeBoolean r with
  | .error e => (.error e, entry)
  | .ok (newEntry, _) => (.ok (), mergeValueBoolean entry newEntry)

/-- entry.go `ValueBoolean.UpdateValue`. -/
def ValueBoolean.UpdateValue (entry : ValueBoolean) (value : Bool) :
    Except Err Unit × ValueBoolean :=
  (.ok (), mergeValueBoolean entry (BuildBoolean value))

/-- entry.go: `type ValueString struct { Value string; RawValue []byte }`;
the Go string is modelled as its byte sequence. -/
structure ValueString where
  Value : List Nat
  RawValue : List Nat
  deriving DecidableEq

/-- entry.go `DecodeString`: ULEB128 length, then exactly that many payload
bytes (io.ReadFull, so a short stream fails with the stream-end error). -/
def DecodeString (r : List Nat) : Except Err (ValueString × List Nat) :=
  match DecodeAndSaveULEB128 r with
  | .error e => .error e
  | .ok (uleb, ulebData, rest) =>
    if rest.length < uleb then .error .truncated
    else .ok (⟨rest.take uleb, ulebData ++ rest.take uleb⟩, rest.drop uleb)

/-- entry.go `BuildString`; `uint32(len(stringBytes))` truncates the length
to 32 bits. -/
def BuildString (value : List Nat) : ValueString :=
  ⟨value, EncodeULEB128 (value.length % 2 ^ 32) ++ value⟩

/-- `mergo.MergeWithOverwrite` specialised to a ValueString dst and src. -/
def mergeValueString (dst src : ValueString) : ValueString :=
  ⟨if src.Value = [] then dst.Value else src.Value,
   if src.RawValue = [] then dst.RawValue else src.RawValue⟩

/-- entry.go `ValueString.GetRaw`. -/
def ValueString.GetRaw (entry : ValueString) : List Nat :=
  entry.RawValue

/-- entry.go `ValueString.UpdateRaw`. -/
def ValueString.UpdateRaw (entry : ValueString) (r : List Nat) :
    Except Err Unit × ValueString :=
  match DecodeString r with
  | .error e => (.error e, entry)
  | .ok (newEntry, _) => (.ok (), mergeValueString entry newEntry)

/-- entry.go `ValueString.UpdateValue`. -/
def ValueString.UpdateValue (entry : ValueString) (value : List Nat) :
    Except Err Unit × ValueString :=
  (.ok (), mergeValueString entry (BuildString value))

/-- entry.go: `type ValueDouble struct { Value float64; RawValue []byte }`;
the float64 is modelled by its 64-bit pattern. -/
structure ValueDouble where
  Value : Nat
  RawValue : List Nat
  deriving DecidableEq

/-- entry.go `DecodeDouble`: io.ReadFull of exactly 8 bytes. -/
def DecodeDouble (r : List Nat) : Except Err (ValueDouble × List Nat) :=
  if r.length < 8 then .error .truncated
  else .ok (⟨BytesToFloat64 (r.take 8), r.take 8⟩, r.drop 8)

/-- entry.go `BuildDouble`. -/
def BuildDouble (value : Nat) : ValueDouble :=
  ⟨value, Float64ToBytes value⟩

/-- `mergo.MergeWithOverwrite` specialised to a ValueDouble dst and src; a
float64 field is empty exactly when it compares equal to 0.0, i.e. its bit
pattern is that of +0.0 or -0.0. -/
def mergeValueDouble (dst src : ValueDouble) : ValueDouble :=
  ⟨if src.Value = 0 ∨ src.Value = 2 ^ 63 then dst.Value else src.Value,
   if src.RawValue = [] then dst.RawValue else src.RawValue⟩

/-- entry.go `ValueDouble.GetRaw`. -/
def ValueDouble.GetRaw (entry : ValueDouble) : List Nat :=
  entry.RawValue

/-- entry.go `ValueDouble.UpdateRaw`. -/
def ValueDouble.UpdateRaw (entry : ValueDouble) (r : List Nat) :
    Except Err Unit × ValueDouble :=
  match DecodeDouble r with
  | .error e => (.error e, entry)
  | .ok (newEntry, _) => (.ok (), mergeValueDouble entry newEntry)

/-- entry.go `ValueDouble.UpdateValue`. -/
def ValueDouble.UpdateValue (entry : ValueDouble) (value : Nat) :
    Except Err Unit × ValueDouble :=
  (.ok (), mergeValueDouble entry (BuildDouble value))

/-- entry.go: `type ValueRaw struct { Value []byte; RawValue []byte }`. -/
structure ValueRaw where
  Value : List Nat
  RawValue : List Nat
  deriving DecidableEq

/-- entry.go `DecodeRaw`: same framing as DecodeString, opaque payload. -/
def DecodeRaw (r : List Nat) : Except Err (ValueRaw × List Nat) :=
  match DecodeAndSaveULEB128 r with
  | .error e => .error e
  | .ok (uleb, ulebData, rest) =>
    if rest.length < uleb then .error .truncated
    else .ok (⟨rest.take uleb, ulebData ++ rest.take uleb⟩, rest.drop uleb)

/-- entry.go `BuildRaw`. -/
def BuildRaw (value : List Nat) : ValueRaw :=
  ⟨value, EncodeULEB128 (value.length % 2 ^ 32) ++ value⟩

/-- `mergo.MergeWithOverwrite` specialised to a ValueRaw dst and src. -/
def mergeValueRaw (dst src : ValueRaw) : ValueRaw :=
  ⟨if src.Value = [] then dst.Value else src.Value,
   if src.RawValue = [] then dst.RawValue else src.RawValue⟩

/-- entry.go `ValueRaw.GetRaw`. -/
def ValueRaw.GetRaw (entry : ValueRaw) : List Nat :=
  entry.RawValue

/-- entry.go `ValueRaw.UpdateRaw`. -/
def ValueRaw.UpdateRaw (entry : ValueRaw) (r : List Nat) :
    Except Err Unit × ValueRaw :=
  match DecodeRaw r with
  | .error e => (.error e, entry)
  | .ok (newEntry, _) => (.ok (), mergeValueRaw entry newEntry)

/-- entry.go `ValueRaw.UpdateValue`. -/
def ValueRaw.UpdateValue (entry : ValueRaw) (value : List Nat) :
    Except Err Unit × ValueRaw :=
  (.ok (), mergeValueRaw entry (BuildRaw value))

/-- entry.go: `type ValueBooleanArray struct { elements []*ValueBoolean }`. -/
structure ValueBooleanArray where
  elements : List ValueBoolean
  deriving DecidableEq

/-- entry.go: `type ValueDoubleArray struct { elements []*ValueDouble }`. -/
structure ValueDoubleArray where
  elements : List ValueDouble
  deriving DecidableEq

/-- entry.go: `type ValueStringArray struct { elements []*ValueString }`. -/
structure ValueStringArray where
  elements : List ValueString
  deriving DecidableEq

/-- entry.go: the `EntryValue` interface, closed over the variants the codec
constructs. -/
inductive EntryValue where
  | boolean (v : ValueBoolean)
  | double (v : ValueDouble)
  | string (v : ValueString)
  | raw (v : ValueRaw)
  | booleanArray (v : ValueBooleanArray)
  | doubleArray (v : ValueDoubleArray)
  | stringArray (v : ValueStringArray)
  deriving DecidableEq

/-- Runtime-variant discriminator, mirroring the Go type assertion
`entry.(*ValueBoolean)`. -/
def EntryValue.isBoolean : EntryValue → Bool
  | .boolean _ => true
  | _ => false

/-- Runtime-variant discriminator, mirroring `entry.(*ValueDouble)`. -/
def EntryValue.isDouble : EntryValue → Bool
  | .double _ => true
  | _ => false

/-- Runtime-variant discriminator, mirroring `entry.(*ValueString)`. -/
def EntryValue.isString : EntryValue → Bool
  | .string _ => true
  | _ => false

/-- Overwrite the element at a given position; out-of-range positions leave
the list unchanged (never reached by the guarded callers below). -/
def listSet {α : Type} : List α → Nat → α → List α
  | [], _, _ => []
  | _ :: tl, 0, a => a :: tl
  | hd :: tl, n + 1, a => hd :: listSet tl n a

/-- The element-decoding loop of entry.go `DecodeBooleanArray`: decode the
given number of booleans in sequence, aborting on the first element error. -/
def DecodeBooleanElements : Nat → List Nat → Except Err (List ValueBoolean × List Nat)
  | 0, r => .ok ([], r)
  | n + 1, r =>
    match DecodeBoolean r with
    | .error e => .error e
    | .ok (v, rest) =>
      match DecodeBooleanElements n rest with
      | .error e => .error e
      | .ok (vs, rem) => .ok (v :: vs, rem)

/-- entry.go `DecodeBooleanArray`: read 1 count byte, then decode that many
booleans. -/
def DecodeBooleanArray : List Nat → Except Err (ValueBooleanArray × List Nat)
  | [] => .error .truncated
  | c :: rest =>
    match DecodeBooleanElements c rest with
    | .error e => .error e
    | .ok (els, rem) => .ok (⟨els⟩, rem)

/-- entry.go `BuildBooleanArray`: inputs longer than 255 are silently
truncated to their first 255 elements. -/
def BuildBooleanArray (values : List ValueBoolean) : ValueBooleanArray :=
  if values.length > 255 then ⟨values.take 255⟩ else ⟨values⟩

/-- entry.go `ValueBooleanArray.Get`; the bound compares against
`uint8(len(array.elements))`, i.e. the length truncated to a byte. -/
def ValueBooleanArray.Get (array : ValueBooleanArray) (index : Nat) :
    Except Err EntryValue :=
  if h : array.elements.length % 256 ≤ index then .error .arrayIndexOutOfBounds
  else .ok (.boolean (array.elements.get ⟨index, by
    have := Nat.mod_le array.elements.length 256; omega⟩))

/-- entry.go `ValueBooleanArray.Update`: type assertion first, then the
byte-truncated bounds check, then a mergo merge of the new value over the
element in place. -/
def ValueBooleanArray.Update (array : ValueBooleanArray) (index : Nat)
    (entry : EntryValue) : Except Err Unit × ValueBooleanArray :=
  match entry with
  | .boolean boolean =>
    if array.elements.length % 256 ≤ index then (.error .arrayIndexOutOfBounds, array)
    else
      match array.elements.get? index with
      | some el => (.ok (), ⟨listSet array.elements index (mergeValueBoolean el boolean)⟩)
      | none => (.error .arrayIndexOutOfBounds, array)
  | _ => (.error .entryCastInvalid, array)

/-- entry.go `ValueBooleanArray.Add`: the capacity guard is
`len(array.elements) > 255`, so an array holding exactly 255 elements still
accepts one more. -/
def ValueBooleanArray.Add (array : ValueBooleanArray) (entry : EntryValue) :
    Except Err Unit × ValueBooleanArray :=
  match entry with
  | .boolean boolean =>
    if array.elements.length > 255 then (.error .arrayOutOfSpace, array)
    else (.ok (), ⟨array.elements ++ [boolean]⟩)
  | _ => (.error .entryCastInvalid, array)

/-- entry.go `ValueBooleanArray.GetRaw`: one count byte `uint8(len)` followed
by the raw bytes of the first `uint8(len)` elements (the loop counter is a
uint8 compared against the truncated length). -/
def ValueBooleanArray.GetRaw (array : ValueBooleanArray) : List Nat :=
  array.elements.length % 256 ::
    ((array.elements.take (array.elements.length % 256)).map ValueBoolean.GetRaw).flatten

/-- The element-decoding loop of entry.go `DecodeDoubleArray`. -/
def DecodeDoubleElements : Nat → List Nat → Except Err (List ValueDouble × List Nat)
  | 0, r => .ok ([], r)
  | n + 1, r =>
    match DecodeDouble r with
    | .error e => .error e
    | .ok (v, rest) =>
      match DecodeDoubleElements n rest with
      | .error e => .error e
      | .ok (vs, rem) => .ok (v :: vs, rem)

/-- entry.go `DecodeDoubleArray`. -/
def DecodeDoubleArray : List Nat → Except Err (ValueDoubleArray × List Nat)
  | [] => .error .truncated
  | c :: rest =>
    match DecodeDoubleElements c rest with
    | .error e => .error e
    | .ok (els, rem) => .ok (⟨els⟩, rem)

/-- entry.go `BuildDoubleArray`. -/
def BuildDoubleArray (values : List ValueDouble) : ValueDoubleArray :=
  if values.length > 255 then ⟨values.take 255⟩ else ⟨values⟩

/-- entry.go `ValueDoubleArray.Get`. -/
def ValueDoubleArray.Get (array : ValueDoubleArray) (index : Nat) :
    Except Err EntryValue :=
  if h : array.elements.length % 256 ≤ index then .error .arrayIndexOutOfBounds
  else .ok (.double (array.elements.get ⟨index, by
    have := Nat.mod_le array.elements.length 256; omega⟩))

/-- entry.go `ValueDoubleArray.Update`: unlike the boolean and string arrays,
this call passes `&array.elements[index]` — a pointer to a pointer — as
mergo's dst; mergo's argument resolution only accepts a dst that dereferences
to a struct or map and returns its not-supported error without mutating
anything, so the in-bounds, type-correct case always fails. -/
def ValueDoubleArray.Update (array : ValueDoubleArray) (index : Nat)
    (entry : EntryValue) : Except Err Unit × ValueDoubleArray :=
  match entry with
  | .double _ =>
    if array.elements.length % 256 ≤ index then (.error .arrayIndexOutOfBounds, array)
    else (.error .mergoNotSupported, array)
  | _ => (.error .entryCastInvalid, array)

/-- entry.go `ValueDoubleArray.Add`: same `> 255` capacity guard. -/
def ValueDoubleArray.Add (array : ValueDoubleArray) (entry : EntryValue) :
    Except Err Unit × ValueDoubleArray :=
  match entry with
  | .double double =>
    if array.elements.length > 255 then (.error .arrayOutOfSpace, array)
    else (.ok (), ⟨array.elements ++ [double]⟩)
  | _ => (.error .entryCastInvalid, array)

/-- entry.go `ValueDoubleArray.GetRaw`. -/
def ValueDoubleArray.GetRaw (array : ValueDoubleArray) : List Nat :=
  array.elements.length % 256 ::
    ((array.elements.take (array.elements.length % 256)).map ValueDouble.GetRaw).flatten

/-- The element-decoding loop of entry.go `DecodeStringArray`. -/
def DecodeStringElements : Nat → List Nat → Except Err (List ValueString × List Nat)
  | 0, r => .ok ([], r)
  | n + 1, r =>
    match DecodeString r with
    | .error e => .error e
    | .ok (v, rest) =>
      match DecodeStringElements n rest with
      | .error e => .error e
      | .ok (vs, rem) => .ok (v :: vs, rem)

/-- entry.go `DecodeStringArray`. -/
def DecodeStringArray : List Nat → Except Err (ValueStringArray × List Nat)
  | [] => .error .truncated
  | c :: rest =>
    match DecodeStringElements c rest with
    | .error e => .error e
    | .ok (els, rem) => .ok (⟨els⟩, rem)

/-- entry.go `BuildStringArray`. -/
def BuildStringArray (values : List ValueString) : ValueStringArray :=
  if values.length > 255 then ⟨values.take 255⟩ else ⟨values⟩

/-- entry.go `ValueStringArray.Get`. -/
def ValueStringArray.Get (array : ValueStringArray) (index : Nat) :
    Except Err EntryValue :=
  if h : array.elements.length % 256 ≤ index then .error .arrayIndexOutOfBounds
  else .ok (.string (array.elements.get ⟨index, by
    have := Nat.mod_le array.elements.length 256; omega⟩))

/-- entry.go `ValueStringArray.Update`. -/
def ValueStringArray.Update (array : ValueStringArray) (index : Nat)
    (entry : EntryValue) : Except Err Unit × ValueStringArray :=
  match entry with
  | .string str =>
    if array.elements.length % 256 ≤ index then (.error .arrayIndexOutOfBounds, array)
    else
      match array.elements.get? index with
      | some el => (.ok (), ⟨listSet array.elements index (mergeValueString el str)⟩)
      | none => (.error .arrayIndexOutOfBounds, array)
  | _ => (.error .entryCastInvalid, array)

/-- entry.go `ValueStringArray.Add`: same `> 255` capacity guard. -/
def ValueStringArray.Add (array : ValueStringArray) (entry : EntryValue) :
    Except Err Unit × ValueStringArray :=
  match entry with
  | .string str =>
    if array.elements.length > 255 then (.error .arrayOutOfSpace, array)
    else (.ok (), ⟨array.elements ++ [str]⟩)
  | _ => (.error .entryCastInvalid, array)

/-- entry.go `ValueStringArray.GetRaw`. -/
def ValueStringArray.GetRaw (array : ValueStringArray) : List Nat :=
  array.elements.length % 256 ::
    ((array.elements.take (array.elements.length % 256)).map ValueString.GetRaw).flatten

/-- The `GetRaw` method of the `EntryValue` interface, dispatched over the
variants. -/
def EntryValue.GetRaw : EntryValue → List Nat
  | .boolean v => v.GetRaw
  | .double v => v.GetRaw
  | .string v => v.GetRaw
  | .raw v => v.GetRaw
  | .booleanArray v => v.GetRaw
  | .doubleArray v => v.GetRaw
  | .stringArray v => v.GetRaw

/-- entry.go `DecodeEntryType`: read one byte and return it as the EntryType
with no validation whatsoever. -/
def DecodeEntryType : List Nat → Except Err (Nat × List Nat)
  | [] => .error .truncated
  | b :: rest => .ok (b, rest)

/-- entry.go `DecodeEntryValue`: dispatch on the type tag; any tag outside
the seven decodable variants (including 0x20 RPCDef and 0xFF Undefined)
fails with ErrEntryNoSuchType. -/
def DecodeEntryValue (entryType : Nat) (r : List Nat) :
    Except Err (EntryValue × List Nat) :=
  if entryType = 0x00 then
    (DecodeBoolean r).map (fun p => (.boolean p.1, p.2))
  else if entryType = 0x01 then
    (DecodeDouble r).map (fun p => (.double p.1, p.2))
  else if entryType = 0x02 then
    (DecodeString r).map (fun p => (.string p.1, p.2))
  else if entryType = 0x03 then
    (DecodeRaw r).map (fun p => (.raw p.1, p.2))
  else if entryType = 0x10 then
    (DecodeBooleanArray r).map (fun p => (.booleanArray p.1, p.2))
  else if entryType = 0x11 then
    (DecodeDoubleArray r).map (fun p => (.doubleArray p.1, p.2))
  else if entryType = 0x12 then
    (DecodeStringArray r).map (fun p => (.stringArray p.1, p.2))
  else .error .entryNoSuchType

/-- entry.go `DecodeEntryValueAndType`: read the tag byte, then dispatch. -/
def DecodeEntryValueAndType (r : List Nat) :
    Except Err (EntryValue × Nat × List Nat) :=
  match r with
  | [] => .error .truncated
  | b :: rest => (DecodeEntryValue b rest).map (fun p => (p.1, b, p.2))

theorem encodeULEB128_sound (n : Nat) :
    ∀ extra, DecodeAndSaveULEB128 (EncodeULEB128 n ++ extra) =
      .ok (n, EncodeULEB128 n, extra) := by
  induction n using Nat.strong_induction_on with
  | _ n ih =>
    intro extra
    by_cases h : n < 128
    · rw [EncodeULEB128]
      simp [h, DecodeAndSaveULEB128]
    · rw [EncodeULEB128]
      simp only [if_neg h, List.cons_append]
      have hrec := ih (n / 128) (by omega) extra
      have hb : ¬ (n % 128 + 128 < 128) := by omega
      simp only [DecodeAndSaveULEB128, if_neg hb, hrec]
      have hv : (n % 128 + 128) % 128 + 128 * (n / 128) = n := by omega
      rw [hv]

theorem decodeULEB128_consumed :
    ∀ (bytes : List Nat) (n : Nat) (consumed rem : List Nat),
      DecodeAndSaveULEB128 bytes = .ok (n, consumed, rem) →
      consumed ++ rem = bytes := by
  intro bytes
  induction bytes with
  | nil =>
    intro n c r h
    simp [DecodeAndSaveULEB128] at h
  | cons b rest ih =>
    intro n c r h
    by_cases hb : b < 128
    · simp [DecodeAndSaveULEB128, hb] at h
      obtain ⟨_, hc, hr⟩ := h
      subst hc; subst hr; rfl
    · simp only [DecodeAndSaveULEB128, if_neg hb] at h
      cases hrec : DecodeAndSaveULEB128 rest with
      | error e => rw [hrec] at h; simp at h
      | ok p =>
        obtain ⟨v, c2, r2⟩ := p
        rw [hrec] at h
        simp at h
        obtain ⟨_, hc, hr⟩ := h
        subst hc; subst hr
        have := ih v c2 r2 hrec
        simp [this]

theorem encodeULEB128_minimal_aux :
    ∀ (bytes : List Nat) (n : Nat) (consumed rem : List Nat),
      DecodeAndSaveULEB128 bytes = .ok (n, consumed, rem) →
      (EncodeULEB128 n).length ≤ consumed.length := by
  intro bytes
  induction bytes with
  | nil =>
    intro n c r h
    simp [DecodeAndSaveULEB128] at h
  | cons b rest ih =>
    intro n c r h
    by_cases hb : b < 128
    · simp [DecodeAndSaveULEB128, hb] at h
      obtain ⟨hn, hc, _⟩ := h
      subst hn; subst hc
      rw [EncodeULEB128]
      simp [hb]
    · simp only [DecodeAndSaveULEB128, if_neg hb] at h
      cases hrec : DecodeAndSaveULEB128 rest with
      | error e => rw [hrec] at h; simp at h
      | ok p =>
        obtain ⟨v, c2, r2⟩ := p
        rw [hrec] at h
        simp at h
        obtain ⟨hn, hc, _⟩ := h
        subst hn; subst hc
        by_cases hv : v = 0
        · subst hv
          rw [EncodeULEB128]
          have h2 : b % 128 < 128 := by omega
          simp [h2, Nat.le_add_left]
        · rw [EncodeULEB128]
          have hge : ¬ (b % 128 + 128 * v < 128) := by
        -- v ≥ 1 makes the value at least 128
            omega
          simp only [if_neg hge, List.length_cons]
          have hdiv : (b % 128 + 128 * v) / 128 = v := by omega
          rw [hdiv]
          have := ih v c2 r2 hrec
          simpa using Nat.succ_le_succ this

theorem decodeBoolean_build (b : Bool) (extra : List Nat) :
    DecodeBoolean ((BuildBoolean b).GetRaw ++ extra) = .ok (BuildBoolean b, extra) := by
  cases b <;> simp [BuildBoolean, ValueBoolean.GetRaw, DecodeBoolean]

theorem decodeBoolean_consumed (bytes : List Nat) (v : ValueBoolean) (rest : List Nat)
    (h : DecodeBoolean bytes = .ok (v, rest)) : v.GetRaw ++ rest = bytes := by
  cases bytes with
  | nil => simp [DecodeBoolean] at h
  | cons b tl =>
    by_cases h0 : b = 0
    · subst h0
      simp [DecodeBoolean] at h
      obtain ⟨hv, hr⟩ := h
      subst hv; subst hr
      rfl
    · by_cases h1 : b = 1
      · subst h1
        simp [DecodeBoolean] at h
        obtain ⟨hv, hr⟩ := h
        subst hv; subst hr
        rfl
      · simp [DecodeBoolean, h0, h1] at h

theorem decodeString_build (s : List Nat) (h : s.length < 2 ^ 32) (extra : List Nat) :
    DecodeString ((BuildString s).GetRaw ++ extra) = .ok (BuildString s, extra) := by
  have hmod : s.length % 2 ^ 32 = s.length := Nat.mod_eq_of_lt h
  simp only [BuildString, ValueString.GetRaw, hmod, List.append_assoc]
  rw [DecodeString, encodeULEB128_sound]
  have hlen : ¬ ((s ++ extra).length < s.length) := by simp
  simp only [if_neg hlen, List.take_left, List.drop_left]

theorem decodeString_consumed (bytes : List Nat) (v : ValueString) (rest : List Nat)
    (h : DecodeString bytes = .ok (v, rest)) : v.GetRaw ++ rest = bytes := by
  rw [DecodeString] at h
  cases huleb : DecodeAndSaveULEB128 bytes with
  | error e => rw [huleb] at h; simp at h
  | ok p =>
    obtain ⟨n, c, rem⟩ := p
    rw [huleb] at h
    by_cases hlen : rem.length < n
    · simp [hlen] at h
    · simp [hlen] at h
      obtain ⟨hv, hr⟩ := h
      subst hv; subst hr
      have hc := decodeULEB128_consumed bytes n c rem huleb
      simp only [ValueString.GetRaw, List.append_assoc, List.take_append_drop]
      exact hc

theorem decodeRaw_build (s : List Nat) (h : s.length < 2 ^ 32) (extra : List Nat) :
    DecodeRaw ((BuildRaw s).GetRaw ++ extra) = .ok (BuildRaw s, extra) := by
  have hmod : s.length % 2 ^ 32 = s.length := Nat.mod_eq_of_lt h
  simp only [BuildRaw, ValueRaw.GetRaw, hmod, List.append_assoc]
  rw [DecodeRaw, encodeULEB128_sound]
  have hlen : ¬ ((s ++ extra).length < s.length) := by simp
  simp only [if_neg hlen, List.take_left, List.drop_left]

theorem decodeRaw_consumed (bytes : List Nat) (v : ValueRaw) (rest : List Nat)
    (h : DecodeRaw bytes = .ok (v, rest)) : v.GetRaw ++ rest = bytes := by
  rw [DecodeRaw] at h
  cases huleb : DecodeAndSaveULEB128 bytes with
  | error e => rw [huleb] at h; simp at h
  | ok p =>
    obtain ⟨n, c, rem⟩ := p
    rw [huleb] at h
    by_cases hlen : rem.length < n
    · simp [hlen] at h
    · simp [hlen] at h
      obtain ⟨hv, hr⟩ := h
      subst hv; subst hr
      have hc := decodeULEB128_consumed bytes n c rem huleb
      simp only [ValueRaw.GetRaw, List.append_assoc, List.take_append_drop]
      exact hc

theorem float64ToBytes_length (f : Nat) : (Float64ToBytes f).length = 8 := rfl

theorem bytesToFloat64_float64ToBytes (f : Nat) (h : f < 2 ^ 64) :
    BytesToFloat64 (Float64ToBytes f) = f := by
  simp only [Float64ToBytes, BytesToFloat64, List.foldl]
  omega

theorem decodeDouble_build (f : Nat) (h : f < 2 ^ 64) (extra : List Nat) :
    DecodeDouble ((BuildDouble f).GetRaw ++ extra) = .ok (BuildDouble f, extra) := by
  simp only [BuildDouble, ValueDouble.GetRaw]
  rw [DecodeDouble]
  have hlen : ¬ ((Float64ToBytes f ++ extra).length < 8) := by
    simp [float64ToBytes_length]
  simp only [if_neg hlen]
  have ht : (Float64ToBytes f ++ extra).take 8 = Float64ToBytes f := by
    have := List.take_left (Float64ToBytes f) extra
    rwa [float64ToBytes_length] at this
  have hd : (Float64ToBytes f ++ extra).drop 8 = extra := by
    have := List.drop_left (Float64ToBytes f) extra
    rwa [float64ToBytes_length] at this
  rw [ht, hd, bytesToFloat64_float64ToBytes f h]

theorem decodeDouble_consumed (bytes : List Nat) (v : ValueDouble) (rest : List Nat)
    (h : DecodeDouble bytes = .ok (v, rest)) : v.GetRaw ++ rest = bytes := by
  rw [DecodeDouble] at h
  by_cases hlen : bytes.length < 8
  · simp [hlen] at h
  · simp [hlen] at h
    obtain ⟨hv, hr⟩ := h
    subst hv; subst hr
    simp [ValueDouble.GetRaw]

theorem decodeBooleanElements_ofRaw (vs : List ValueBoolean)
    (hwf : ∀ v ∈ vs, ∀ ex, DecodeBoolean (v.GetRaw ++ ex) = .ok (v, ex)) :
    ∀ extra, DecodeBooleanElements vs.length
      ((vs.map ValueBoolean.GetRaw).flatten ++ extra) = .ok (vs, extra) := by
  induction vs with
  | nil => intro extra; simp [DecodeBooleanElements]
  | cons v tl ih =>
    intro extra
    simp only [List.map_cons, List.flatten_cons, List.length_cons, List.append_assoc]
    simp only [DecodeBooleanElements, hwf v (by simp),
      ih (fun w hw ex => hwf w (by simp [hw]) ex) extra]

theorem decodeBooleanElements_consumed :
    ∀ (n : Nat) (s : List Nat) (els : List ValueBoolean) (rem : List Nat),
      DecodeBooleanElements n s = .ok (els, rem) →
      (els.map ValueBoolean.GetRaw).flatten ++ rem = s ∧ els.length = n := by
  intro n
  induction n with
  | zero =>
    intro s els rem h
    simp [DecodeBooleanElements] at h
    obtain ⟨he, hr⟩ := h
    subst he; subst hr
    simp
  | succ m ih =>
    intro s els rem h
    rw [DecodeBooleanElements] at h
    cases hdec : DecodeBoolean s with
    | error e => simp only [hdec] at h; exact absurd h (by simp)
    | ok p =>
      obtain ⟨v, rest⟩ := p
      simp only [hdec] at h
      cases hels : DecodeBooleanElements m rest with
      | error e => simp only [hels] at h; exact absurd h (by simp)
      | ok q =>
        obtain ⟨vs, rem2⟩ := q
        simp only [hels] at h
        simp at h
        obtain ⟨he, hr⟩ := h
        subst he; subst hr
        obtain ⟨hflat, hlen⟩ := ih rest vs rem2 hels
        refine ⟨?_, by simp [hlen]⟩
        have hv := decodeBoolean_consumed s v rest hdec
        simp only [List.map_cons, List.flatten_cons, List.append_assoc, hflat, hv]

theorem decodeDoubleElements_ofRaw (vs : List ValueDouble)
    (hwf : ∀ v ∈ vs, ∀ ex, DecodeDouble (v.GetRaw ++ ex) = .ok (v, ex)) :
    ∀ extra, DecodeDoubleElements vs.length
      ((vs.map ValueDouble.GetRaw).flatten ++ extra) = .ok (vs, extra) := by
  induction vs with
  | nil => intro extra; simp [DecodeDoubleElements]
  | cons v tl ih =>
    intro extra
    simp only [List.map_cons, List.flatten_cons, List.length_cons, List.append_assoc]
    simp only [DecodeDoubleElements, hwf v (by simp),
      ih (fun w hw ex => hwf w (by simp [hw]) ex) extra]

theorem decodeDoubleElements_consumed :
    ∀ (n : Nat) (s : List Nat) (els : List ValueDouble) (rem : List Nat),
      DecodeDoubleElements n s = .ok (els, rem) →
      (els.map ValueDouble.GetRaw).flatten ++ rem = s ∧ els.length = n := by
  intro n
  induction n with
  | zero =>
    intro s els rem h
    simp [DecodeDoubleElements] at h
    obtain ⟨he, hr⟩ := h
    subst he; subst hr
    simp
  | succ m ih =>
    intro s els rem h
    rw [DecodeDoubleElements] at h
    cases hdec : DecodeDouble s with
    | error e => simp only [hdec] at h; exact absurd h (by simp)
    | ok p =>
      obtain ⟨v, rest⟩ := p
      simp only [hdec] at h
      cases hels : DecodeDoubleElements m rest with
      | error e => simp only [hels] at h; exact absurd h (by simp)
      | ok q =>
        obtain ⟨vs, rem2⟩ := q
        simp only [hels] at h
        simp at h
        obtain ⟨he, hr⟩ := h
        subst he; subst hr
        obtain ⟨hflat, hlen⟩ := ih rest vs rem2 hels
        refine ⟨?_, by simp [hlen]⟩
        have hv := decodeDouble_consumed s v rest hdec
        simp only [List.map_cons, List.flatten_cons, List.append_assoc, hflat, hv]

theorem decodeStringElements_ofRaw (vs : List ValueString)
    (hwf : ∀ v ∈ vs, ∀ ex, DecodeString (v.GetRaw ++ ex) = .ok (v, ex)) :
    ∀ extra, DecodeStringElements vs.length
      ((vs.map ValueString.GetRaw).flatten ++ extra) = .ok (vs, extra) := by
  induction vs with
  | nil => intro extra; simp [DecodeStringElements]
  | cons v tl ih =>
    intro extra
    simp only [List.map_cons, List.flatten_cons, List.length_cons, List.append_assoc]
    simp only [DecodeStringElements, hwf v (by simp),
      ih (fun w hw ex => hwf w (by simp [hw]) ex) extra]

theorem decodeStringElements_consumed :
    ∀ (n : Nat) (s : List Nat) (els : List ValueString) (rem : List Nat),
      DecodeStringElements n s = .ok (els, rem) →
      (els.map ValueString.GetRaw).flatten ++ rem = s ∧ els.length = n := by
  intro n
  induction n with
  | zero =>
    intro s els rem h
    simp [DecodeStringElements] at h
    obtain ⟨he, hr⟩ := h
    subst he; subst hr
    simp
  | succ m ih =>
    intro s els rem h
    rw [DecodeStringElements] at h
    cases hdec : DecodeString s with
    | error e => simp only [hdec] at h; exact absurd h (by simp)
    | ok p =>
      obtain ⟨v, rest⟩ := p
      simp only [hdec] at h
      cases hels : DecodeStringElements m rest with
      | error e => simp only [hels] at h; exact absurd h (by simp)
      | ok q =>
        obtain ⟨vs, rem2⟩ := q
        simp only [hels] at h
        simp at h
        obtain ⟨he, hr⟩ := h
        subst he; subst hr
        obtain ⟨hflat, hlen⟩ := ih rest vs rem2 hels
        refine ⟨?_, by simp [hlen]⟩
        have hv := decodeString_consumed s v rest hdec
        simp only [List.map_cons, List.flatten_cons, List.append_assoc, hflat, hv]

theorem decodeBooleanArray_ofRaw (vs : List ValueBoolean) (hlen : vs.length ≤ 255)
    (hwf : ∀ v ∈ vs, ∀ ex, DecodeBoolean (v.GetRaw ++ ex) = .ok (v, ex)) :
    DecodeBooleanArray (ValueBooleanArray.GetRaw ⟨vs⟩) = .ok (⟨vs⟩, []) := by
  have hmod : vs.length % 256 = vs.length := Nat.mod_eq_of_lt (by omega)
  have hels := decodeBooleanElements_ofRaw vs hwf []
  rw [List.append_nil] at hels
  simp only [ValueBooleanArray.GetRaw, hmod, List.take_length, DecodeBooleanArray, hels]

theorem decodeBooleanArray_consumed (bytes : List Nat) (arr : ValueBooleanArray)
    (rest : List Nat) (hb : ∀ x ∈ bytes, x < 256)
    (h : DecodeBooleanArray bytes = .ok (arr, rest)) :
    arr.GetRaw ++ rest = bytes := by
  cases bytes with
  | nil => simp [DecodeBooleanArray] at h
  | cons c tl =>
    rw [DecodeBooleanArray] at h
    cases hels : DecodeBooleanElements c tl with
    | error e => simp only [hels] at h; exact absurd h (by simp)
    | ok p =>
      obtain ⟨els, rem⟩ := p
      simp only [hels] at h
      simp at h
      obtain ⟨ha, hr⟩ := h
      subst ha; subst hr
      obtain ⟨hflat, hlenc⟩ := decodeBooleanElements_consumed c tl els rem hels
      have hc : c < 256 := hb c (by simp)
      have hm : els.length % 256 = els.length := by rw [hlenc]; exact Nat.mod_eq_of_lt hc
      simp only [ValueBooleanArray.GetRaw]
      rw [hm, List.take_length, List.cons_append, hflat, hlenc]

theorem decodeDoubleArray_ofRaw (vs : List ValueDouble) (hlen : vs.length ≤ 255)
    (hwf : ∀ v ∈ vs, ∀ ex, DecodeDouble (v.GetRaw ++ ex) = .ok (v, ex)) :
    DecodeDoubleArray (ValueDoubleArray.GetRaw ⟨vs⟩) = .ok (⟨vs⟩, []) := by
  have hmod : vs.length % 256 = vs.length := Nat.mod_eq_of_lt (by omega)
  have hels := decodeDoubleElements_ofRaw vs hwf []
  rw [List.append_nil] at hels
  simp only [ValueDoubleArray.GetRaw, hmod, List.take_length, DecodeDoubleArray, hels]

theorem decodeDoubleArray_consumed (bytes : List Nat) (arr : ValueDoubleArray)
    (rest : List Nat) (hb : ∀ x ∈ bytes, x < 256)
    (h : DecodeDoubleArray bytes = .ok (arr, rest)) :
    arr.GetRaw ++ rest = bytes := by
  cases bytes with
  | nil => simp [DecodeDoubleArray] at h
  | cons c tl =>
    rw [DecodeDoubleArray] at h
    cases hels : DecodeDoubleElements c tl with
    | error e => simp only [hels] at h; exact absurd h (by simp)
    | ok p =>
      obtain ⟨els, rem⟩ := p
      simp only [hels] at h
      simp at h
      obtain ⟨ha, hr⟩ := h
      subst ha; subst hr
      obtain ⟨hflat, hlenc⟩ := decodeDoubleElements_consumed c tl els rem hels
      have hc : c < 256 := hb c (by simp)
      have hm : els.length % 256 = els.length := by rw [hlenc]; exact Nat.mod_eq_of_lt hc
      simp only [ValueDoubleArray.GetRaw]
      rw [hm, List.take_length, List.cons_append, hflat, hlenc]

theorem decodeStringArray_ofRaw (vs : List ValueString) (hlen : vs.length ≤ 255)
    (hwf : ∀ v ∈ vs, ∀ ex, DecodeString (v.GetRaw ++ ex) = .ok (v, ex)) :
    DecodeStringArray (ValueStringArray.GetRaw ⟨vs⟩) = .ok (⟨vs⟩, []) := by
  have hmod : vs.length % 256 = vs.length := Nat.mod_eq_of_lt (by omega)
  have hels := decodeStringElements_ofRaw vs hwf []
  rw [List.append_nil] at hels
  simp only [ValueStringArray.GetRaw, hmod, List.take_length, DecodeStringArray, hels]

theorem decodeStringArray_consumed (bytes : List Nat) (arr : ValueStringArray)
    (rest : List Nat) (hb : ∀ x ∈ bytes, x < 256)
    (h : DecodeStringArray bytes = .ok (arr, rest)) :
    arr.GetRaw ++ rest = bytes := by
  cases bytes with
  | nil => simp [DecodeStringArray] at h
  | cons c tl =>
    rw [DecodeStringArray] at h
    cases hels : DecodeStringElements c tl with
    | error e => simp only [hels] at h; exact absurd h (by simp)
    | ok p =>
      obtain ⟨els, rem⟩ := p
      simp only [hels] at h
      simp at h
      obtain ⟨ha, hr⟩ := h
      subst ha; subst hr
      obtain ⟨hflat, hlenc⟩ := decodeStringElements_consumed c tl els rem hels
      have hc : c < 256 := hb c (by simp)
      have hm : els.length % 256 = els.length := by rw [hlenc]; exact Nat.mod_eq_of_lt hc
      simp only [ValueStringArray.GetRaw]
      rw [hm, List.take_length, List.cons_append, hflat, hlenc]

/-- C3: round-trip identity holds for every value variant: for every logical
value, decoding the bytes produced by encoding it (GetRaw after Build) yields
a value equal to it, and for every well-formed byte sequence, the value
decoded from it re-encodes (GetRaw after Decode) to exactly the bytes it
consumed. -/
theorem roundtrip_identity_all_variants :
    (∀ b : Bool, DecodeBoolean (BuildBoolean b).GetRaw = .ok (BuildBoolean b, [])) ∧
    (∀ f : Nat, f < 2 ^ 64 →
      DecodeDouble (BuildDouble f).GetRaw = .ok (BuildDouble f, [])) ∧
    (∀ s : List Nat, s.length < 2 ^ 32 →
      DecodeString (BuildString s).GetRaw = .ok (BuildString s, [])) ∧
    (∀ v : List Nat, v.length < 2 ^ 32 →
      DecodeRaw (BuildRaw v).GetRaw = .ok (BuildRaw v, [])) ∧
    (∀ bs : List Bool, bs.length ≤ 255 →
      DecodeBooleanArray (BuildBooleanArray (bs.map BuildBoolean)).GetRaw =
        .ok (BuildBooleanArray (bs.map BuildBoolean), [])) ∧
    (∀ fs : List Nat, fs.length ≤ 255 → (∀ f ∈ fs, f < 2 ^ 64) →
      DecodeDoubleArray (BuildDoubleArray (fs.map BuildDouble)).GetRaw =
        .ok (BuildDoubleArray (fs.map BuildDouble), [])) ∧
    (∀ ss : List (List Nat), ss.length ≤ 255 → (∀ s ∈ ss, s.length < 2 ^ 32) →
      DecodeStringArray (BuildStringArray (ss.map BuildString)).GetRaw =
        .ok (BuildStringArray (ss.map BuildString), [])) ∧
    (∀ (bytes : List Nat) (v : ValueBoolean) (rest : List Nat),
      DecodeBoolean bytes = .ok (v, rest) → v.GetRaw ++ rest = bytes) ∧
    (∀ (bytes : List Nat) (v : ValueDouble) (rest : List Nat),
      DecodeDouble bytes = .ok (v, rest) → v.GetRaw ++ rest = bytes) ∧
    (∀ (bytes : List Nat) (v : ValueString) (rest : List Nat),
      DecodeString bytes = .ok (v, rest) → v.GetRaw ++ rest = bytes) ∧
    (∀ (bytes : List Nat) (v : ValueRaw) (rest : List Nat),
      DecodeRaw bytes = .ok (v, rest) → v.GetRaw ++ rest = bytes) ∧
    (∀ (bytes : List Nat) (arr : ValueBooleanArray) (rest : List Nat),
      (∀ x ∈ bytes, x < 256) → DecodeBooleanArray bytes = .ok (arr, rest) →
      arr.GetRaw ++ rest = bytes) ∧
    (∀ (bytes : List Nat) (arr : ValueDoubleArray) (rest : List Nat),
      (∀ x ∈ bytes, x < 256) → DecodeDoubleArray bytes = .ok (arr, rest) →
      arr.GetRaw ++ rest = bytes) ∧
    (∀ (bytes : List Nat) (arr : ValueStringArray) (rest : List Nat),
      (∀ x ∈ bytes, x < 256) → DecodeStringArray bytes = .ok (arr, rest) →
      arr.GetRaw ++ rest = bytes) := by
  refine ⟨?_, ?_, ?_, ?_, ?_, ?_, ?_, ?_, ?_, ?_, ?_, ?_, ?_, ?_⟩
  · intro b
    have := decodeBoolean_build b []
    rwa [List.append_nil] at this
  · intro f hf
    have := decodeDouble_build f hf []
    rwa [List.append_nil] at this
  · intro s hs
    have := decodeString_build s hs []
    rwa [List.append_nil] at this
  · intro v hv
    have := decodeRaw_build v hv []
    rwa [List.append_nil] at this
  · intro bs hlen
    have hl : (bs.map BuildBoolean).length ≤ 255 := by simpa using hlen
    have hno : ¬ ((bs.map BuildBoolean).length > 255) := by omega
    rw [BuildBooleanArray, if_neg hno]
    refine decodeBooleanArray_ofRaw _ hl ?_
    intro v hv ex
    obtain ⟨b, _, hb⟩ := List.mem_map.mp hv
    subst hb
    exact decodeBoolean_build b ex
  · intro fs hlen hbound
    have hl : (fs.map BuildDouble).length ≤ 255 := by simpa using hlen
    have hno : ¬ ((fs.map BuildDouble).length > 255) := by omega
    rw [BuildDoubleArray, if_neg hno]
    refine decodeDoubleArray_ofRaw _ hl ?_
    intro v hv ex
    obtain ⟨f, hf, hb⟩ := List.mem_map.mp hv
    subst hb
    exact decodeDouble_build f (hbound f hf) ex
  · intro ss hlen hbound
    have hl : (ss.map BuildString).length ≤ 255 := by simpa using hlen
    have hno : ¬ ((ss.map BuildString).length > 255) := by omega
    rw [BuildStringArray, if_neg hno]
    refine decodeStringArray_ofRaw _ hl ?_
    intro v hv ex
    obtain ⟨s, hs, hb⟩ := List.mem_map.mp hv
    subst hb
    exact decodeString_build s (hbound s hs) ex
  · exact decodeBoolean_consumed
  · exact decodeDouble_consumed
  · exact decodeString_consumed
  · exact decodeRaw_consumed
  · intro bytes arr rest hb h
    exact decodeBooleanArray_consumed bytes arr rest hb h
  · intro bytes arr rest hb h
    exact decodeDoubleArray_consumed bytes arr rest hb h
  · intro bytes arr rest hb h
    exact decodeStringArray_consumed bytes arr rest hb h

/-- Witness for C3: the round-trip identities evaluated at concrete inputs,
with every hypothesis discharged by evaluation. -/
theorem roundtrip_identity_all_variants_witness :
    (DecodeBoolean (BuildBoolean true).GetRaw = .ok (BuildBoolean true, [])) ∧
    (DecodeDouble (BuildDouble 1).GetRaw = .ok (BuildDouble 1, [])) ∧
    (DecodeString (BuildString [97, 98, 99]).GetRaw = .ok (BuildString [97, 98, 99], [])) ∧
    (DecodeRaw (BuildRaw [5]).GetRaw = .ok (BuildRaw [5], [])) ∧
    (DecodeBooleanArray (BuildBooleanArray ([true].map BuildBoolean)).GetRaw =
      .ok (BuildBooleanArray ([true].map BuildBoolean), [])) ∧
    (DecodeDoubleArray (BuildDoubleArray ([1].map BuildDouble)).GetRaw =
      .ok (BuildDoubleArray ([1].map BuildDouble), [])) ∧
    (DecodeStringArray (BuildStringArray ([[97]].map BuildString)).GetRaw =
      .ok (BuildStringArray ([[97]].map BuildString), [])) ∧
    (ValueBoolean.GetRaw ⟨true, [1]⟩ ++ [7] = [1, 7]) ∧
    (ValueDouble.GetRaw ⟨2, [0, 0, 0, 0, 0, 0, 0, 2]⟩ ++ [] = [0, 0, 0, 0, 0, 0, 0, 2]) ∧
    (ValueString.GetRaw ⟨[97], [1, 97]⟩ ++ [] = [1, 97]) ∧
    (ValueRaw.GetRaw ⟨[97], [1, 97]⟩ ++ [] = [1, 97]) ∧
    (ValueBooleanArray.GetRaw ⟨[⟨true, [1]⟩]⟩ ++ [] = [1, 1]) ∧
    (ValueDoubleArray.GetRaw ⟨[⟨2, [0, 0, 0, 0, 0, 0, 0, 2]⟩]⟩ ++ [] =
      [1, 0, 0, 0, 0, 0, 0, 0, 2]) ∧
    (ValueStringArray.GetRaw ⟨[⟨[97], [1, 97]⟩]⟩ ++ [] = [1, 1, 97]) := by
  refine ⟨roundtrip_identity_all_variants.1 true,
    roundtrip_identity_all_variants.2.1 1 (by decide),
    roundtrip_identity_all_variants.2.2.1 [97, 98, 99] (by decide),
    roundtrip_identity_all_variants.2.2.2.1 [5] (by decide),
    roundtrip_identity_all_variants.2.2.2.2.1 [true] (by decide),
    roundtrip_identity_all_variants.2.2.2.2.2.1 [1] (by decide) (by decide),
    roundtrip_identity_all_variants.2.2.2.2.2.2.1 [[97]] (by decide) (by decide),
    roundtrip_identity_all_variants.2.2.2.2.2.2.2.1 [1, 7] ⟨true, [1]⟩ [7] rfl,
    roundtrip_identity_all_variants.2.2.2.2.2.2.2.2.1 [0, 0, 0, 0, 0, 0, 0, 2]
      ⟨2, [0, 0, 0, 0, 0, 0, 0, 2]⟩ [] rfl,
    roundtrip_identity_all_variants.2.2.2.2.2.2.2.2.2.1 [1, 97] ⟨[97], [1, 97]⟩ [] rfl,
    roundtrip_identity_all_variants.2.2.2.2.2.2.2.2.2.2.1 [1, 97] ⟨[97], [1, 97]⟩ []
      rfl,
    roundtrip_identity_all_variants.2.2.2.2.2.2.2.2.2.2.2.1 [1, 1] ⟨[⟨true, [1]⟩]⟩ []
      (by decide) rfl,
    roundtrip_identity_all_variants.2.2.2.2.2.2.2.2.2.2.2.2.1
      [1, 0, 0, 0, 0, 0, 0, 0, 2] ⟨[⟨2, [0, 0, 0, 0, 0, 0, 0, 2]⟩]⟩ []
      (by decide) rfl,
    roundtrip_identity_all_variants.2.2.2.2.2.2.2.2.2.2.2.2.2
      [1, 1, 97] ⟨[⟨[97], [1, 97]⟩]⟩ [] (by decide) rfl⟩

/-- C1: evaluation of the code at the failing input. `Add` on a
BooleanArray already holding 255 elements succeeds (its guard is
`length > 255`, not `length ≥ 255`) and yields a 256-element array instead of
failing with the capacity error, refuting the claimed 255-element ceiling. -/
theorem booleanArray_add_at_capacity_overflows :
    (ValueBooleanArray.Add ⟨List.replicate 255 (BuildBoolean true)⟩
      (.boolean (BuildBoolean true))).1 = .ok () ∧
    (ValueBooleanArray.Add ⟨List.replicate 255 (BuildBoolean true)⟩
      (.boolean (BuildBoolean true))).2.elements.length = 256 := by
  have h : ¬ ((List.replicate 255 (BuildBoolean true)).length > 255) := by
    rw [List.length_replicate]
    decide
  constructor
  · simp only [ValueBooleanArray.Add, if_neg h]
  · simp only [ValueBooleanArray.Add, if_neg h]
    rw [List.length_append, List.length_replicate]
    rfl

/-- C2: evaluation of the code at the failing inputs. `UpdateValue false` on
a boolean holding true reports success but, because mergo skips empty source
fields, replaces only the wire bytes: the stored logical value stays `true`
while the stored bytes re-decode to `false`. The same happens for
`UpdateValue ""` on a string holding "a". -/
theorem updateValue_false_desyncs_raw :
    (ValueBoolean.UpdateValue ⟨true, [1]⟩ false).1 = .ok () ∧
    (ValueBoolean.UpdateValue ⟨true, [1]⟩ false).2 = ⟨true, [0]⟩ ∧
    DecodeBoolean [0] = .ok (⟨false, [0]⟩, []) ∧
    (ValueString.UpdateValue ⟨[97], [1, 97]⟩ []).1 = .ok () ∧
    (ValueString.UpdateValue ⟨[97], [1, 97]⟩ []).2 = ⟨[97], [0]⟩ ∧
    DecodeString [0] = .ok (⟨[], [0]⟩, []) := by
  refine ⟨rfl, rfl, rfl, rfl, ?_, rfl⟩
  show mergeValueString ⟨[97], [1, 97]⟩ (BuildString []) = ⟨[97], [0]⟩
  rw [BuildString, EncodeULEB128]
  norm_num [mergeValueString]

/-- C4: for every scalar variant, an UpdateRaw whose decode fails returns
that decode error and leaves the previous logical value and wire bytes fully
intact. -/
theorem updateRaw_failure_leaves_value_intact :
    (∀ (v : ValueBoolean) (s : List Nat) (e : Err),
      DecodeBoolean s = .error e → v.UpdateRaw s = (.error e, v)) ∧
    (∀ (v : ValueDouble) (s : List Nat) (e : Err),
      DecodeDouble s = .error e → v.UpdateRaw s = (.error e, v)) ∧
    (∀ (v : ValueString) (s : List Nat) (e : Err),
      DecodeString s = .error e → v.UpdateRaw s = (.error e, v)) ∧
    (∀ (v : ValueRaw) (s : List Nat) (e : Err),
      DecodeRaw s = .error e → v.UpdateRaw s = (.error e, v)) := by
  refine ⟨?_, ?_, ?_, ?_⟩
  · intro v s e h
    simp only [ValueBoolean.UpdateRaw, h]
  · intro v s e h
    simp only [ValueDouble.UpdateRaw, h]
  · intro v s e h
    simp only [ValueString.UpdateRaw, h]
  · intro v s e h
    simp only [ValueRaw.UpdateRaw, h]

/-- Witness for C4: a truncated (empty) stream fed to each scalar's
UpdateRaw leaves the receiver unchanged. -/
theorem updateRaw_failure_leaves_value_intact_witness :
    DecodeBoolean [] = .error .truncated ∧
    ValueBoolean.UpdateRaw ⟨true, [1]⟩ [] = (.error .truncated, ⟨true, [1]⟩) ∧
    ValueDouble.UpdateRaw ⟨2, [0, 0, 0, 0, 0, 0, 0, 2]⟩ [1, 2, 3] =
      (.error .truncated, ⟨2, [0, 0, 0, 0, 0, 0, 0, 2]⟩) ∧
    ValueString.UpdateRaw ⟨[97], [1, 97]⟩ [3, 97] =
      (.error .truncated, ⟨[97], [1, 97]⟩) ∧
    ValueRaw.UpdateRaw ⟨[97], [1, 97]⟩ [] = (.error .truncated, ⟨[97], [1, 97]⟩) :=
  ⟨rfl,
   updateRaw_failure_leaves_value_intact.1 ⟨true, [1]⟩ [] .truncated rfl,
   updateRaw_failure_leaves_value_intact.2.1 ⟨2, [0, 0, 0, 0, 0, 0, 0, 2]⟩ [1, 2, 3]
     .truncated rfl,
   updateRaw_failure_leaves_value_intact.2.2.1 ⟨[97], [1, 97]⟩ [3, 97] .truncated rfl,
   updateRaw_failure_leaves_value_intact.2.2.2 ⟨[97], [1, 97]⟩ [] .truncated rfl⟩

/-- C5: DecodeBoolean reads exactly one byte: 0x00 decodes to false, 0x01 to
true, any other byte fails with the invalid-data error producing no value,
and an empty stream fails with the stream-end error. -/
theorem decodeBoolean_byte_spec :
    (∀ rest : List Nat, DecodeBoolean (0 :: rest) = .ok (⟨false, [0]⟩, rest)) ∧
    (∀ rest : List Nat, DecodeBoolean (1 :: rest) = .ok (⟨true, [1]⟩, rest)) ∧
    (∀ (b : Nat) (rest : List Nat), b ≠ 0 → b ≠ 1 →
      DecodeBoolean (b :: rest) = .error .entryDataInvalid) ∧
    DecodeBoolean [] = .error .truncated := by
  refine ⟨fun rest => rfl, fun rest => rfl, ?_, rfl⟩
  intro b rest h0 h1
  simp [DecodeBoolean, h0, h1]

/-- Witness for C5: byte 0x02 is rejected with the invalid-data error. -/
theorem decodeBoolean_byte_spec_witness :
    (2 ≠ 0 ∧ 2 ≠ 1) ∧ DecodeBoolean [2] = .error .entryDataInvalid :=
  ⟨⟨by decide, by decide⟩, decodeBoolean_byte_spec.2.2.1 2 [] (by decide) (by decide)⟩

/-- C6: for every array variant, Update and Add with a value of a
non-matching runtime variant fail with the cast-invalid (type-mismatch)
error and return the array unchanged. -/
theorem array_type_mismatch_rejected :
    (∀ (a : ValueBooleanArray) (i : Nat) (ev : EntryValue), ev.isBoolean = false →
      a.Update i ev = (.error .entryCastInvalid, a) ∧
      a.Add ev = (.error .entryCastInvalid, a)) ∧
    (∀ (a : ValueDoubleArray) (i : Nat) (ev : EntryValue), ev.isDouble = false →
      a.Update i ev = (.error .entryCastInvalid, a) ∧
      a.Add ev = (.error .entryCastInvalid, a)) ∧
    (∀ (a : ValueStringArray) (i : Nat) (ev : EntryValue), ev.isString = false →
      a.Update i ev = (.error .entryCastInvalid, a) ∧
      a.Add ev = (.error .entryCastInvalid, a)) := by
  refine ⟨?_, ?_, ?_⟩ <;> intro a i ev hev <;> cases ev <;>
    first
    | exact ⟨rfl, rfl⟩
    | simp [EntryValue.isBoolean, EntryValue.isDouble, EntryValue.isString] at hev

/-- Witness for C6: a Double value offered to a BooleanArray (and the other
mismatched pairings) is rejected and the array is unchanged. -/
theorem array_type_mismatch_rejected_witness :
    (EntryValue.isBoolean (.double (BuildDouble 1)) = false) ∧
    ValueBooleanArray.Update ⟨[BuildBoolean true]⟩ 0 (.double (BuildDouble 1)) =
      (.error .entryCastInvalid, ⟨[BuildBoolean true]⟩) ∧
    ValueBooleanArray.Add ⟨[BuildBoolean true]⟩ (.double (BuildDouble 1)) =
      (.error .entryCastInvalid, ⟨[BuildBoolean true]⟩) ∧
    ValueDoubleArray.Add ⟨[]⟩ (.boolean (BuildBoolean true)) =
      (.error .entryCastInvalid, ⟨[]⟩) ∧
    ValueStringArray.Add ⟨[]⟩ (.double (BuildDouble 1)) =
      (.error .entryCastInvalid, ⟨[]⟩) :=
  ⟨rfl,
   (array_type_mismatch_rejected.1 ⟨[BuildBoolean true]⟩ 0 (.double (BuildDouble 1)) rfl).1,
   (array_type_mismatch_rejected.1 ⟨[BuildBoolean true]⟩ 0 (.double (BuildDouble 1)) rfl).2,
   (array_type_mismatch_rejected.2.1 ⟨[]⟩ 0 (.boolean (BuildBoolean true)) rfl).2,
   (array_type_mismatch_rejected.2.2 ⟨[]⟩ 0 (.double (BuildDouble 1)) rfl).2⟩

/-- C7: the ULEB128 encoder hits the spec's boundary values, the maximum
32-bit value round-trips without loss, and for every 32-bit input the
encoding is minimal: it decodes back to the input and no byte sequence that
decodes to the same value is shorter. -/
theorem uleb128_minimal_encoding :
    EncodeULEB128 0 = [0x00] ∧
    EncodeULEB128 127 = [0x7F] ∧
    EncodeULEB128 128 = [0x80, 0x01] ∧
    EncodeULEB128 16384 = [0x80, 0x80, 0x01] ∧
    DecodeAndSaveULEB128 (EncodeULEB128 4294967295) =
      .ok (4294967295, EncodeULEB128 4294967295, []) ∧
    (∀ n : Nat, n < 2 ^ 32 →
      DecodeAndSaveULEB128 (EncodeULEB128 n) = .ok (n, EncodeULEB128 n, [])) ∧
    (∀ (n : Nat) (bytes consumed rem : List Nat), n < 2 ^ 32 →
      DecodeAndSaveULEB128 bytes = .ok (n, consumed, rem) →
      (EncodeULEB128 n).length ≤ consumed.length) := by
  refine ⟨?_, ?_, ?_, ?_, ?_, ?_, ?_⟩
  · rw [EncodeULEB128]
    norm_num
  · rw [EncodeULEB128]
    norm_num
  · rw [EncodeULEB128, EncodeULEB128]
    norm_num
  · rw [EncodeULEB128, EncodeULEB128, EncodeULEB128]
    norm_num
  · have := encodeULEB128_sound 4294967295 []
    rwa [List.append_nil] at this
  · intro n _
    have := encodeULEB128_sound n []
    rwa [List.append_nil] at this
  · intro n bytes consumed rem _ h
    exact encodeULEB128_minimal_aux bytes n consumed rem h

/-- Witness for C7: the quantified parts evaluated at n = 128, including
minimality against a padded 3-byte encoding of 0. -/
theorem uleb128_minimal_encoding_witness :
    (128 < 2 ^ 32 ∧ 0 < 2 ^ 32) ∧
    DecodeAndSaveULEB128 (EncodeULEB128 128) = .ok (128, EncodeULEB128 128, []) ∧
    DecodeAndSaveULEB128 [0x80, 0x80, 0x00] = .ok (0, [0x80, 0x80, 0x00], []) ∧
    (EncodeULEB128 0).length ≤ ([0x80, 0x80, 0x00] : List Nat).length :=
  ⟨⟨by decide, by decide⟩,
   uleb128_minimal_encoding.2.2.2.2.2.1 128 (by decide),
   rfl,
   uleb128_minimal_encoding.2.2.2.2.2.2 0 [0x80, 0x80, 0x00] [0x80, 0x80, 0x00] []
     (by decide) rfl⟩

/-- C8: evaluation of the code at the failing input. A type-correct,
in-bounds Update on a DoubleArray does not succeed and overwrite the element:
it returns mergo's not-supported error (the call passes a pointer to a
pointer as mergo's dst) and leaves the array unchanged. -/
theorem doubleArray_update_never_succeeds :
    ValueDoubleArray.Update ⟨[BuildDouble 1]⟩ 0 (.double (BuildDouble 2)) =
      (.error .mergoNotSupported, ⟨[BuildDouble 1]⟩) ∧
    (ValueDoubleArray.Get ⟨[BuildDouble 1]⟩ 0 = .ok (.double (BuildDouble 1))) :=
  ⟨rfl, rfl⟩

/-- C9: array decoding reads one count byte then exactly that many booleans,
aborting on the first element error; the dispatcher decodes
[0x10, 0x02, 0x01, 0x00] to a BooleanArray holding [true, false], whose
re-encoding (tag byte plus GetRaw) reproduces the identical four bytes. -/
theorem booleanArray_decode_example_and_structure :
    DecodeEntryValueAndType [0x10, 0x02, 0x01, 0x00] =
      .ok (.booleanArray ⟨[⟨true, [1]⟩, ⟨false, [0]⟩]⟩, 0x10, []) ∧
    0x10 :: EntryValue.GetRaw (.booleanArray ⟨[⟨true, [1]⟩, ⟨false, [0]⟩]⟩) =
      [0x10, 0x02, 0x01, 0x00] ∧
    (∀ (c : Nat) (rest : List Nat) (e : Err),
      DecodeBooleanElements c rest = .error e →
      DecodeBooleanArray (c :: rest) = .error e) ∧
    (∀ (c : Nat) (rest : List Nat) (els : List ValueBoolean) (rem : List Nat),
      DecodeBooleanElements c rest = .ok (els, rem) →
      DecodeBooleanArray (c :: rest) = .ok (⟨els⟩, rem) ∧ els.length = c) := by
  refine ⟨rfl, rfl, ?_, ?_⟩
  · intro c rest e h
    rw [DecodeBooleanArray]
    simp only [h]
  · intro c rest els rem h
    constructor
    · rw [DecodeBooleanArray]
      simp only [h]
    · exact (decodeBooleanElements_consumed c rest els rem h).2

/-- Witness for C9: the structural conjuncts evaluated concretely — a count
of 2 with an invalid element aborts with that element's error, and a count
of 1 over a single valid element yields a 1-element array. -/
theorem booleanArray_decode_example_and_structure_witness :
    DecodeBooleanElements 2 [1, 9] = .error .entryDataInvalid ∧
    DecodeBooleanArray [2, 1, 9] = .error .entryDataInvalid ∧
    DecodeBooleanElements 1 [1] = .ok ([⟨true, [1]⟩], []) ∧
    (DecodeBooleanArray [1, 1] = .ok (⟨[⟨true, [1]⟩]⟩, []) ∧
      ([⟨true, [1]⟩] : List ValueBoolean).length = 1) :=
  ⟨rfl,
   booleanArray_decode_example_and_structure.2.2.1 2 [1, 9] .entryDataInvalid rfl,
   rfl,
   booleanArray_decode_example_and_structure.2.2.2 1 [1] [⟨true, [1]⟩] [] rfl⟩

/-- C10: DecodeEntryType validates nothing — every successfully read byte,
recognized or not, is returned as the EntryType with no error — while
DecodeEntryValue's dispatch rejects every tag outside the seven decodable
variants with the no-such-type error. -/
theorem decodeEntryType_no_validation :
    (∀ (b : Nat) (rest : List Nat), DecodeEntryType (b :: rest) = .ok (b, rest)) ∧
    (∀ (t : Nat) (s : List Nat), t ≠ 0x00 → t ≠ 0x01 → t ≠ 0x02 → t ≠ 0x03 →
      t ≠ 0x10 → t ≠ 0x11 → t ≠ 0x12 →
      DecodeEntryValue t s = .error .entryNoSuchType) := by
  refine ⟨fun b rest => rfl, ?_⟩
  intro t s h0 h1 h2 h3 h4 h5 h6
  simp only [DecodeEntryValue, if_neg h0, if_neg h1, if_neg h2, if_neg h3,
    if_neg h4, if_neg h5, if_neg h6]

/-- Witness for C10: the unrecognized tag 0x42 and the reserved 0xFF pass
DecodeEntryType untouched and are rejected only by DecodeEntryValue. -/
theorem decodeEntryType_no_validation_witness :
    DecodeEntryType [0x42] = .ok (0x42, []) ∧
    DecodeEntryType [0xFF, 7] = .ok (0xFF, [7]) ∧
    DecodeEntryValue 0x42 [0] = .error .entryNoSuchType ∧
    DecodeEntryValue 0xFF [] = .error .entryNoSuchType :=
  ⟨decodeEntryType_no_validation.1 0x42 [],
   decodeEntryType_no_validation.1 0xFF [7],
   decodeEntryType_no_validation.2 0x42 [0] (by decide) (by decide) (by decide)
     (by decide) (by decide) (by decide) (by decide),
   decodeEntryType_no_validation.2 0xFF [] (by decide) (by decide) (by decide)
     (by decide) (by decide) (by decide) (by decide)⟩

end Ntgo
